import Mathlib

/-! QtServoterm: the chart and text-log slots of the main window.

A shallow embedding of `src/MainWindow.cpp` (namespace `STMBL_Servoterm`).

* A `float` sample is identified with its IEEE-754 binary32 bit pattern; the
  code never computes with samples, it only hands them to the chart.
* `QLineSeries` is the point vector of a Qt Charts line series.  The two
  library calls the window makes on it are modelled after Qt Charts
  (`qxyseries.cpp`): both `append(x, y)` and `replace(index, x, y)` first test
  `isValidValue` and silently ignore a point with a NaN or infinite coordinate.
* A slot returns `none` when one of its indexed accesses is out of range
  (`QVector::operator[]` past the end is undefined behaviour).
* `SCOPE_CHANNEL_COUNT` is declared in `ScopeDataDemux.h`; it is a parameter
  here, and `_chartData`, a C array of that many series, is a function on
  `Fin SCOPE_CHANNEL_COUNT`.
-/

namespace STMBL_Servoterm

/-! ## Qt value types -/

/-- A binary32 value, given by its bit pattern. -/
abbrev float := Nat

/-- A string is its sequence of characters. -/
abbrev QString := List Char

/-- A byte array is its sequence of bytes. -/
abbrev QByteArray := List Nat

/-- The value is neither NaN nor infinite: its exponent field is not all ones
(`!qIsNaN(v) && !qIsInf(v)`). -/
def qIsFinite (v : float) : Bool :=
  (v / 2 ^ 23) % 256 != 255

/-- The binary32 pattern of `1.0`. -/
def float_one : float := 0x3F800000

/-- The binary32 pattern of `-1.0`. -/
def float_minus_one : float := 0xBF800000

/-- A quiet NaN. -/
def float_nan : float := 0x7FC00000

/-- A chart point.  The abscissa always comes from the `int` rolling index, the
ordinate from a `float`; both conversions to `qreal` are exact. -/
structure QPointF where
  x : Int
  y : float
deriving DecidableEq, Repr

/-- Qt Charts `isValidValue(point)`, in `charthelpers_p.h`: false (with the
warning "Ignored NaN, Inf, or -Inf value.") when a coordinate is NaN or
infinite.  The abscissa is an integer, hence always valid. -/
def isValidValue (p : QPointF) : Bool :=
  qIsFinite p.y

/-- The points of a line series, in storage order. -/
abbrev QLineSeries := List QPointF

namespace QLineSeries

/-- Qt's `QXYSeries::count()`. -/
def count (s : QLineSeries) : Int :=
  (s.length : Int)

/-- Qt's `QXYSeries::append(qreal x, qreal y)`, in `qxyseries.cpp`:
`if (isValidValue(point)) { d->m_points << point; emit pointAdded(...); }`.
The point goes to the end of the vector, unless a coordinate is NaN or
infinite, in which case the call is ignored. -/
def append (s : QLineSeries) (x : Int) (y : float) : QLineSeries :=
  if isValidValue ⟨x, y⟩ then s ++ [⟨x, y⟩] else s

/-- Qt's `QXYSeries::replace(int index, qreal newX, qreal newY)`, in
`qxyseries.cpp`:
`if (isValidValue(newPoint)) { d->m_points[index] = newPoint; emit pointReplaced(index); }`.
The point stored at `index` is overwritten; an invalid value is ignored before
the vector is touched.  The result is `none` when `index` is not a position of
the vector. -/
def replace (s : QLineSeries) (index : Int) (newX : Int) (newY : float) :
    Option QLineSeries :=
  if isValidValue ⟨newX, newY⟩ then
    if 0 ≤ index ∧ index < s.count then some (s.set index.toNat ⟨newX, newY⟩)
    else none
  else some s

end QLineSeries

/-! ## The window -/

/-- The length of the rolling window, `MainWindow.cpp:44`. -/
def SAMPLE_WINDOW_LENGTH : Int := 200

/-- The calls made on the `QTextEdit` text log, in order. -/
inductive TextEditOp where
  | moveCursorEnd
  | insertPlainText (text : QString)
  | insertHtml (text : QString)
  | append (text : QString)
deriving DecidableEq, Repr

/-- Modelled from the spec: the parser state of `ScopeDataDemux` (§3
ParserState); the class is declared in `ScopeDataDemux.h`, which is not among
the sources. -/
inductive ParserState where
  | ScanningText
  | ReadingFrameHeader
  | ReadingFrameBody (bytesRemaining : Nat)
deriving DecidableEq, Repr

/-- Modelled from the spec: the state a `ScopeDataDemux` keeps between calls
(§3): its parser state and its carry-over buffer. -/
structure ScopeDataDemux where
  state : ParserState
  carryOver : QByteArray
deriving DecidableEq, Repr

/-- The two signals of the demultiplexer that the window connects to
(`MainWindow.cpp:143-144`). -/
inductive ScopeSignal where
  | scopePacketReceived (packet : List float)
  | scopeResetReceived
deriving DecidableEq, Repr

/-- What one call of `ScopeDataDemux::addData` does: the signals it emits, in
order, the text it returns, and the state it leaves the demultiplexer in. -/
structure AddDataResult where
  demux : ScopeDataDemux
  signals : List ScopeSignal
  text : QString
deriving DecidableEq, Repr

/-- The part of `QSerialPort` the slots look at. -/
structure QSerialPort where
  isOpen : Bool
  portName : QString
deriving DecidableEq, Repr

/-- The members of `MainWindow` that the modelled slots read or write.  The
text log is the trace of calls made on it; `messageBoxes` is the trace of the
titles of the modal `QMessageBox` dialogs shown.  Button enabling
(`slot_UpdateButtons`) and the settings are left out. -/
structure MainWindow (SCOPE_CHANNEL_COUNT : Nat) where
  _portList : List QString
  _chartData : Fin SCOPE_CHANNEL_COUNT → QLineSeries
  _chartRollingLine : QLineSeries
  _textLog : List TextEditOp
  _serialPort : QSerialPort
  _demux : ScopeDataDemux
  _scopeX : Int
  messageBoxes : List QString

namespace MainWindow

variable {SCOPE_CHANNEL_COUNT : Nat}

/-- Qt's `QComboBox::currentText()` of a combo box that is never edited: the first
item, or the empty string when there is none. -/
def currentText (items : List QString) : QString :=
  items.headD []

/-- The constructor (`MainWindow.cpp:48-150`): one empty series per channel,
an empty rolling line, rolling index 0, a closed port, a fresh demultiplexer.
`ports` are the names `_RepopulateDeviceList` finds. -/
def constructed (SCOPE_CHANNEL_COUNT : Nat) (ports : List QString) :
    MainWindow SCOPE_CHANNEL_COUNT where
  _portList := ports
  _chartData := fun _ => []
  _chartRollingLine := []
  _textLog := []
  _serialPort := ⟨false, []⟩
  _demux := ⟨ParserState.ScanningText, []⟩
  _scopeX := 0
  messageBoxes := []

/-- The body of the plotting loop (`MainWindow.cpp:275-280`) for one value of
`channel`. -/
def plotChannel (packet : List float) (scopeX : Int)
    (chartData : Fin SCOPE_CHANNEL_COUNT → QLineSeries) (channel : Nat) :
    Option (Fin SCOPE_CHANNEL_COUNT → QLineSeries) :=
  if h : channel < SCOPE_CHANNEL_COUNT then
    let series := chartData ⟨channel, h⟩
    match packet[channel]? with
    | none => none
    | some yValue =>
      let written :=
        if series.count < SAMPLE_WINDOW_LENGTH then some (series.append scopeX yValue)
        else series.replace scopeX scopeX yValue
      written.map (fun s => Function.update chartData ⟨channel, h⟩ s)
  else none

/-- The plotting loop (`MainWindow.cpp:273-281`) over the given values of
`channel`, in order. -/
def plotChannels (packet : List float) (scopeX : Int) :
    List Nat → (Fin SCOPE_CHANNEL_COUNT → QLineSeries) →
      Option (Fin SCOPE_CHANNEL_COUNT → QLineSeries)
  | [], chartData => some chartData
  | channel :: rest, chartData =>
    match plotChannel packet scopeX chartData channel with
    | none => none
    | some chartData' => plotChannels packet scopeX rest chartData'

/-- The series left by one iteration of the plotting loop when the rolling
index is a position of the window: `append` below the window length, `replace`
at the rolling index otherwise, and no change for a value Qt Charts rejects. -/
def plotted (scopeX : Int) (series : QLineSeries) (yValue : float) : QLineSeries :=
  if qIsFinite yValue then
    if series.count < SAMPLE_WINDOW_LENGTH then series ++ [⟨scopeX, yValue⟩]
    else series.set scopeX.toNat ⟨scopeX, yValue⟩
  else series

/-- Slot `MainWindow::slot_ScopePacketReceived` (`MainWindow.cpp:251-293`).  The
loop runs `channel` from 0 while `channel < packet.size()` and
`channel < SCOPE_CHANNEL_COUNT`. -/
def slot_ScopePacketReceived (w : MainWindow SCOPE_CHANNEL_COUNT) (packet : List float) :
    Option (MainWindow SCOPE_CHANNEL_COUNT) :=
  match plotChannels packet w._scopeX
      (List.range (min packet.length SCOPE_CHANNEL_COUNT)) w._chartData with
  | none => none
  | some chartData =>
    let scopeX := w._scopeX + 1
    let scopeX := if scopeX ≥ SAMPLE_WINDOW_LENGTH then 0 else scopeX
    some { w with
      _chartData := chartData
      _scopeX := scopeX
      _chartRollingLine := [⟨scopeX, float_minus_one⟩, ⟨scopeX, float_one⟩] }

/-- Slot `MainWindow::slot_ScopeResetReceived` (`MainWindow.cpp:295-298`). -/
def slot_ScopeResetReceived (w : MainWindow SCOPE_CHANNEL_COUNT) :
    MainWindow SCOPE_CHANNEL_COUNT :=
  { w with _scopeX := 0 }

/-- Qt's `QString::split(sep, QString::KeepEmptyParts)` for a one-character
separator: the pieces between consecutive separators, empty pieces included;
a string with `k` separators gives `k + 1` pieces. -/
def split (sep : Char) : QString → List QString
  | [] => [[]]
  | c :: cs =>
    if c = sep then [] :: split sep cs
    else
      match split sep cs with
      | [] => [[c]]
      | piece :: pieces => (c :: piece) :: pieces

/-- The loop over `lines` (`MainWindow.cpp:230-243`); `atBegin` tells whether
the iterator is `lines.begin()`. -/
def insertLines : Bool → List QString → List TextEditOp
  | _, [] => []
  | atBegin, line :: rest =>
    [TextEditOp.moveCursorEnd]
      ++ (if atBegin then []
          else [TextEditOp.insertPlainText ['\n'], TextEditOp.moveCursorEnd])
      ++ (if line.isEmpty then []
          else [TextEditOp.insertHtml line, TextEditOp.moveCursorEnd])
      ++ insertLines false rest

/-- The calls `slot_SerialDataReceived` makes on the text log for the text
`txt` returned by the demultiplexer (`MainWindow.cpp:223-244`). -/
def showText (txt : QString) : List TextEditOp :=
  if txt.isEmpty then [] else insertLines true (split '\n' txt)

/-- The calls of a trace that insert text, in order: the cursor moves are
dropped. -/
def insertions (ops : List TextEditOp) : List TextEditOp :=
  ops.filter (fun op => op != TextEditOp.moveCursorEnd)

/-- The text a trace inserts: the arguments of its `insertPlainText` and
`insertHtml` calls, concatenated in call order. -/
def insertedText : List TextEditOp → QString
  | [] => []
  | TextEditOp.insertPlainText text :: ops => text ++ insertedText ops
  | TextEditOp.insertHtml text :: ops => text ++ insertedText ops
  | _ :: ops => insertedText ops

/-- The arguments of the `insertPlainText` calls of a trace, in call order. -/
def plainTextInsertions : List TextEditOp → List QString
  | [] => []
  | TextEditOp.insertPlainText text :: ops => text :: plainTextInsertions ops
  | _ :: ops => plainTextInsertions ops

/-- The arguments of the `insertHtml` calls of a trace, in call order. -/
def htmlInsertions : List TextEditOp → List QString
  | [] => []
  | TextEditOp.insertHtml text :: ops => text :: htmlInsertions ops
  | _ :: ops => htmlInsertions ops

/-- Synchronous delivery of the signals emitted during one `addData` call to
the slots connected at `MainWindow.cpp:143-144`. -/
def deliver (w : MainWindow SCOPE_CHANNEL_COUNT) :
    List ScopeSignal → Option (MainWindow SCOPE_CHANNEL_COUNT)
  | [] => some w
  | ScopeSignal.scopePacketReceived packet :: rest =>
    match slot_ScopePacketReceived w packet with
    | none => none
    | some w' => deliver w' rest
  | ScopeSignal.scopeResetReceived :: rest =>
    deliver (slot_ScopeResetReceived w) rest

/-- Slot `MainWindow::slot_SerialDataReceived` (`MainWindow.cpp:219-245`).
`buf` is what `_serialPort->readAll()` returns; `addData` is the behaviour of
`ScopeDataDemux::addData`, whose signals reach the chart slots before it
returns. -/
def slot_SerialDataReceived (addData : ScopeDataDemux → QByteArray → AddDataResult)
    (w : MainWindow SCOPE_CHANNEL_COUNT) (buf : QByteArray) :
    Option (MainWindow SCOPE_CHANNEL_COUNT) :=
  let r := addData w._demux buf
  match deliver { w with _demux := r.demux } r.signals with
  | none => none
  | some w' => some { w' with _textLog := w'._textLog ++ showText r.text }

/-- Slot `MainWindow::slot_ConnectClicked` (`MainWindow.cpp:156-177`).
`openSucceeds` is the result of `_serialPort->open(QIODevice::ReadWrite)`. -/
def slot_ConnectClicked (openSucceeds : Bool) (w : MainWindow SCOPE_CHANNEL_COUNT) :
    MainWindow SCOPE_CHANNEL_COUNT :=
  if w._serialPort.isOpen then
    { w with messageBoxes := w.messageBoxes ++ ["Error opening serial port".toList] }
  else
    let portName := currentText w._portList
    if portName.isEmpty then
      { w with messageBoxes := w.messageBoxes ++ ["Error opening serial port".toList] }
    else
      let w := { w with _serialPort := { w._serialPort with portName := portName } }
      if !openSucceeds then
        { w with messageBoxes := w.messageBoxes ++ ["Error opening serial port".toList] }
      else
        { w with
          _serialPort := { w._serialPort with isOpen := true }
          _textLog := w._textLog ++
            [TextEditOp.append "<font color=\"FireBrick\">connected</font><br/>".toList] }

/-- Slot `MainWindow::slot_DisconnectClicked` (`MainWindow.cpp:179-194`). -/
def slot_DisconnectClicked (w : MainWindow SCOPE_CHANNEL_COUNT) :
    MainWindow SCOPE_CHANNEL_COUNT :=
  if !w._serialPort.isOpen then
    { w with messageBoxes := w.messageBoxes ++ ["Error closing serial port".toList] }
  else
    let w := { w with _serialPort := { w._serialPort with isOpen := false } }
    if w._serialPort.isOpen then
      { w with messageBoxes := w.messageBoxes ++ ["Error closing serial port".toList] }
    else
      { w with
        _textLog := w._textLog ++
          [TextEditOp.append "<font color=\"FireBrick\">disconnected</font><br/>".toList] }

/-- The chart states the window can be in: the constructed one, and those
obtained from it by sample packets and reset events. -/
inductive Reachable : MainWindow SCOPE_CHANNEL_COUNT → Prop where
  | constructed (ports : List QString) : Reachable (constructed SCOPE_CHANNEL_COUNT ports)
  | packet {w w' : MainWindow SCOPE_CHANNEL_COUNT} (p : List float) :
      Reachable w → slot_ScopePacketReceived w p = some w' → Reachable w'
  | reset {w : MainWindow SCOPE_CHANNEL_COUNT} :
      Reachable w → Reachable (slot_ScopeResetReceived w)

/-- The chart states obtained from the constructed one by full-length sample
packets whose plotted values are all finite, with no reset event. -/
inductive FilledByPackets : MainWindow SCOPE_CHANNEL_COUNT → Prop where
  | constructed (ports : List QString) :
      FilledByPackets (constructed SCOPE_CHANNEL_COUNT ports)
  | packet {w w' : MainWindow SCOPE_CHANNEL_COUNT} (p : List float) :
      FilledByPackets w → SCOPE_CHANNEL_COUNT ≤ p.length →
      (∀ c y, c < SCOPE_CHANNEL_COUNT → p[c]? = some y → qIsFinite y = true) →
      slot_ScopePacketReceived w p = some w' → FilledByPackets w'

end MainWindow

/-! ## The demultiplexer, from the specification

`ScopeDataDemux.cpp` is not among the sources.  The definitions of this section
follow §3, §4 and §8 of the specification.  Where the specification leaves the
wire format open (§9), the constants are fields of `Protocol`; the frame layout
is the one of the concrete scenario of §8: a marker byte, a kind byte, a length
byte, then the payload. -/

/-- Modelled from the spec: the protocol constants that §9 asks to be passed as
explicit configuration (marker, kind tags, channel count, sample width, and
the byte order as the decoder of one sample); `ScopeDataDemux.h` is missing. -/
structure Protocol where
  MARKER : Nat
  KIND_SAMPLE : Nat
  KIND_RESET : Nat
  CHANNEL_COUNT : Nat
  sampleWidth : Nat
  decodeSample : List Nat → float

namespace Protocol

/-- Modelled from the spec: the samples of a payload, one per `sampleWidth`
bytes, in channel order (§4.2 numeric semantics); `ScopeDataDemux.cpp` is
missing.  The recursion is over the number of samples still to decode. -/
def decodeSamples (cfg : Protocol) : Nat → List Nat → List float
  | 0, _ => []
  | n + 1, payload =>
    cfg.decodeSample (payload.take cfg.sampleWidth)
      :: decodeSamples cfg n (payload.drop cfg.sampleWidth)

/-- Modelled from the spec: the Packet Assembler's `decodeFrame(kind,
payloadBytes)` of §4.2; `none` is `DecodeError`.  The source
`ScopeDataDemux.cpp` is missing. -/
def decodeFrame (cfg : Protocol) (kind : Nat) (payloadBytes : List Nat) :
    Option ScopeSignal :=
  if kind = cfg.KIND_SAMPLE then
    if payloadBytes.length = cfg.CHANNEL_COUNT * cfg.sampleWidth then
      some (ScopeSignal.scopePacketReceived (cfg.decodeSamples cfg.CHANNEL_COUNT payloadBytes))
    else none
  else if kind = cfg.KIND_RESET then
    if payloadBytes.length = 0 then some ScopeSignal.scopeResetReceived else none
  else none

/-- Modelled from the spec: the header check of §4.1 and §4.2, made as soon as
the kind and the declared length are read: the kind is known and the length
is the one `decodeFrame` accepts for it.  The source is missing. -/
def headerValid (cfg : Protocol) (kind len : Nat) : Bool :=
  (kind = cfg.KIND_SAMPLE ∧ len = cfg.CHANNEL_COUNT * cfg.sampleWidth)
    ∨ (kind = cfg.KIND_RESET ∧ len = 0)

/-- Modelled from the spec: the narrow 8-bit text decoding of §4.3, one
character per byte; the source is missing. -/
def decodeText (bytes : List Nat) : QString :=
  bytes.map Char.ofNat

/-- Modelled from the spec: the end of a frame (§4.1, §4.2): the payload is
decoded and reported; a `DecodeError` reports nothing.  Either way the parser
is back in `ScanningText` with an empty carry-over buffer.  The source is
missing. -/
def completeFrame (cfg : Protocol) (kind : Nat) (payloadBytes : List Nat) : AddDataResult :=
  match cfg.decodeFrame kind payloadBytes with
  | some signal => ⟨⟨ParserState.ScanningText, []⟩, [signal], []⟩
  | none => ⟨⟨ParserState.ScanningText, []⟩, [], []⟩

/-- Modelled from the spec: the Frame Scanner's reaction to one byte (§4.1);
`ScopeDataDemux.cpp` is missing.
* `ScanningText`: the marker opens a frame, any other byte is text.
* `ReadingFrameHeader`: the first byte is the kind, kept in the carry-over
  buffer; the second is the declared length.  An invalid header is given back
  as text, marker included, and the parser resynchronizes; a valid header with
  length 0 completes the frame at once.
* `ReadingFrameBody n`: the byte joins the payload in the carry-over buffer;
  the frame completes with the last of the declared bytes.  Only sample frames
  have a body. -/
def feedByte (cfg : Protocol) (d : ScopeDataDemux) (b : Nat) : AddDataResult :=
  match d.state with
  | ParserState.ScanningText =>
    if b = cfg.MARKER then ⟨⟨ParserState.ReadingFrameHeader, []⟩, [], []⟩
    else ⟨⟨ParserState.ScanningText, []⟩, [], decodeText [b]⟩
  | ParserState.ReadingFrameHeader =>
    match d.carryOver with
    | [] => ⟨⟨ParserState.ReadingFrameHeader, [b]⟩, [], []⟩
    | kind :: _ =>
      if cfg.headerValid kind b then
        if b = 0 then cfg.completeFrame kind []
        else ⟨⟨ParserState.ReadingFrameBody b, []⟩, [], []⟩
      else ⟨⟨ParserState.ScanningText, []⟩, [], decodeText [cfg.MARKER, kind, b]⟩
  | ParserState.ReadingFrameBody bytesRemaining =>
    if bytesRemaining ≤ 1 then cfg.completeFrame cfg.KIND_SAMPLE (d.carryOver ++ [b])
    else ⟨⟨ParserState.ReadingFrameBody (bytesRemaining - 1), d.carryOver ++ [b]⟩, [], []⟩

/-- Modelled from the spec: `ScopeDataDemux::addData`, the `feed(rawBytes)` of
§4.1: the bytes of the chunk are scanned in order from the state left by the
previous call; the decoded text is concatenated in arrival order, and so are
the frame events.  `ScopeDataDemux.cpp` is missing. -/
def addData (cfg : Protocol) (d : ScopeDataDemux) : QByteArray → AddDataResult
  | [] => ⟨d, [], []⟩
  | b :: rest =>
    let first := cfg.feedByte d b
    let others := addData cfg first.demux rest
    ⟨others.demux, first.signals ++ others.signals, first.text ++ others.text⟩

/-- One `addData` call per chunk, in order, as `slot_SerialDataReceived` makes
them: the final state, all signals emitted and all text returned, concatenated
in call order. -/
def addChunks (cfg : Protocol) (d : ScopeDataDemux) : List QByteArray → AddDataResult
  | [] => ⟨d, [], []⟩
  | chunk :: rest =>
    let first := cfg.addData d chunk
    let others := addChunks cfg first.demux rest
    ⟨others.demux, first.signals ++ others.signals, first.text ++ others.text⟩

end Protocol

/-! ## Theorems: the chart -/

namespace MainWindow

variable {SCOPE_CHANNEL_COUNT : Nat}

theorem plotChannels_append (packet : List float) (scopeX : Int) (l₁ l₂ : List Nat)
    (chartData : Fin SCOPE_CHANNEL_COUNT → QLineSeries) :
    plotChannels packet scopeX (l₁ ++ l₂) chartData =
      (plotChannels packet scopeX l₁ chartData).bind (plotChannels packet scopeX l₂) := by
  induction l₁ generalizing chartData with
  | nil => simp [plotChannels]
  | cons channel rest ih =>
    simp only [List.cons_append, plotChannels]
    cases plotChannel packet scopeX chartData channel with
    | none => simp
    | some chartData' => simpa using ih chartData'

theorem plotChannel_eq (packet : List float) (scopeX : Int)
    (chartData : Fin SCOPE_CHANNEL_COUNT → QLineSeries) (channel : Nat) (yValue : float)
    (h : channel < SCOPE_CHANNEL_COUNT) (hy : packet[channel]? = some yValue)
    (h0 : 0 ≤ scopeX) (h200 : scopeX < SAMPLE_WINDOW_LENGTH) :
    plotChannel packet scopeX chartData channel =
      some (Function.update chartData ⟨channel, h⟩
        (plotted scopeX (chartData ⟨channel, h⟩) yValue)) := by
  unfold plotChannel
  rw [dif_pos h]
  simp only [hy, plotted, QLineSeries.append, QLineSeries.replace, isValidValue]
  by_cases hc : (chartData ⟨channel, h⟩).count < SAMPLE_WINDOW_LENGTH
  · by_cases hv : qIsFinite yValue = true <;> simp [hc, hv]
  · have hlt : scopeX < (chartData ⟨channel, h⟩).count := by omega
    by_cases hv : qIsFinite yValue = true <;> simp [hc, hv, h0, hlt]

/-- The plotting loop over the channels `0 .. n-1` succeeds when the rolling
index is a position of the window, and rewrites exactly those series. -/
theorem plotChannels_range (packet : List float) (scopeX : Int)
    (chartData : Fin SCOPE_CHANNEL_COUNT → QLineSeries)
    (h0 : 0 ≤ scopeX) (h200 : scopeX < SAMPLE_WINDOW_LENGTH) (n : Nat)
    (hn : n ≤ min packet.length SCOPE_CHANNEL_COUNT) :
    ∃ chartData', plotChannels packet scopeX (List.range n) chartData = some chartData' ∧
      ∀ c : Fin SCOPE_CHANNEL_COUNT, chartData' c =
        match packet[c.val]? with
        | some yValue => if c.val < n then plotted scopeX (chartData c) yValue else chartData c
        | none => chartData c := by
  induction n with
  | zero =>
    refine ⟨chartData, by simp [plotChannels], ?_⟩
    intro c
    cases packet[c.val]? <;> simp
  | succ n ih =>
    obtain ⟨cd, hcd, hspec⟩ := ih (by omega)
    have hN : n < SCOPE_CHANNEL_COUNT := by omega
    have hP : n < packet.length := by omega
    have hy : packet[n]? = some packet[n] := List.getElem?_eq_getElem hP
    refine ⟨Function.update cd ⟨n, hN⟩ (plotted scopeX (cd ⟨n, hN⟩) packet[n]), ?_, ?_⟩
    · rw [List.range_succ, plotChannels_append, hcd]
      simp [plotChannels, plotChannel_eq packet scopeX cd n packet[n] hN hy h0 h200]
    · intro c
      by_cases hc : c = ⟨n, hN⟩
      · subst hc
        have := hspec ⟨n, hN⟩
        simp only [hy] at this ⊢
        simp [this]
      · have hne : c.val ≠ n := fun h => hc (Fin.ext h)
        rw [Function.update_noteq hc, hspec c]
        cases packet[c.val]? with
        | none => rfl
        | some yValue =>
          by_cases hlt : c.val < n
          · simp [hlt, Nat.lt_succ_of_lt hlt]
          · have : ¬ c.val < n + 1 := by omega
            simp [hlt, this]

/-- With the rolling index inside the window, the slot returns, and the state
it leaves is the old one with the series of the channels present in the packet
rewritten by `plotted`, the index advanced and wrapped, and the rolling line
moved to the new index. -/
theorem slot_ScopePacketReceived_eq (w : MainWindow SCOPE_CHANNEL_COUNT) (packet : List float)
    (h0 : 0 ≤ w._scopeX) (h200 : w._scopeX < SAMPLE_WINDOW_LENGTH) :
    ∃ chartData : Fin SCOPE_CHANNEL_COUNT → QLineSeries,
      slot_ScopePacketReceived w packet = some { w with
        _chartData := chartData
        _scopeX := (w._scopeX + 1) % 200
        _chartRollingLine :=
          [⟨(w._scopeX + 1) % 200, float_minus_one⟩, ⟨(w._scopeX + 1) % 200, float_one⟩] } ∧
      ∀ c : Fin SCOPE_CHANNEL_COUNT, chartData c =
        match packet[c.val]? with
        | some yValue => plotted w._scopeX (w._chartData c) yValue
        | none => w._chartData c := by
  obtain ⟨cd, hcd, hspec⟩ := plotChannels_range packet w._scopeX w._chartData h0 h200
    (min packet.length SCOPE_CHANNEL_COUNT) (le_refl _)
  have hx : (if w._scopeX + 1 ≥ SAMPLE_WINDOW_LENGTH then (0 : Int) else w._scopeX + 1)
      = (w._scopeX + 1) % 200 := by
    unfold SAMPLE_WINDOW_LENGTH at *
    split <;> omega
  refine ⟨cd, ?_, ?_⟩
  · unfold slot_ScopePacketReceived
    rw [hcd]
    simp only [hx]
  · intro c
    rw [hspec c]
    cases hp : packet[c.val]? with
    | none => rfl
    | some yValue =>
      have hlen : c.val < packet.length := by
        by_contra hge
        rw [List.getElem?_eq_none (by omega)] at hp
        cases hp
      have : c.val < min packet.length SCOPE_CHANNEL_COUNT := by
        have := c.isLt
        omega
      simp [this]

/-- C1: from a rolling index x with 0 <= x < 200, one sample packet (of any
length) leaves the rolling index at (x + 1) mod 200; it is 0 afterwards exactly
when x was 199. -/
theorem slot_ScopePacketReceived_advances (w : MainWindow SCOPE_CHANNEL_COUNT)
    (packet : List float) (h0 : 0 ≤ w._scopeX) (h200 : w._scopeX < SAMPLE_WINDOW_LENGTH) :
    ∃ w', slot_ScopePacketReceived w packet = some w' ∧
      w'._scopeX = (w._scopeX + 1) % 200 ∧ (w'._scopeX = 0 ↔ w._scopeX = 199) := by
  obtain ⟨cd, hslot, -⟩ := slot_ScopePacketReceived_eq w packet h0 h200
  refine ⟨_, hslot, rfl, ?_⟩
  show (w._scopeX + 1) % 200 = 0 ↔ w._scopeX = 199
  unfold SAMPLE_WINDOW_LENGTH at h200
  omega

/-- Witness for C1 at the last position of the window: the index wraps. -/
theorem slot_ScopePacketReceived_advances_witness :
    ∃ w', slot_ScopePacketReceived
        { constructed 2 [] with _scopeX := 199 } [float_one, float_minus_one] = some w' ∧
      w'._scopeX = ((199 : Int) + 1) % 200 ∧ (w'._scopeX = 0 ↔ (199 : Int) = 199) :=
  slot_ScopePacketReceived_advances { constructed 2 [] with _scopeX := 199 }
    [float_one, float_minus_one] (by decide) (by decide)

/-- C2: a reset event puts the rolling index at 0, the value the constructor
gives it, and leaves every other member as it was; in particular the points of
every channel series are the same before and after. -/
theorem slot_ScopeResetReceived_resets (w : MainWindow SCOPE_CHANNEL_COUNT)
    (ports : List QString) :
    (slot_ScopeResetReceived w)._scopeX = 0 ∧
    (constructed SCOPE_CHANNEL_COUNT ports)._scopeX = 0 ∧
    slot_ScopeResetReceived w = { w with _scopeX := 0 } ∧
    (∀ c, (slot_ScopeResetReceived w)._chartData c = w._chartData c) ∧
    (slot_ScopeResetReceived w)._chartRollingLine = w._chartRollingLine ∧
    (slot_ScopeResetReceived w)._textLog = w._textLog ∧
    (slot_ScopeResetReceived w)._demux = w._demux ∧
    (slot_ScopeResetReceived w)._serialPort = w._serialPort :=
  ⟨rfl, rfl, rfl, fun _ => rfl, rfl, rfl, rfl, rfl⟩

/-- C7, as the claim states it, fails for a NaN sample: from the constructed
state the packet with the single value NaN leaves series 0 empty, so the series
does not hold the point (0, NaN) the claim says is appended. -/
theorem slot_ScopePacketReceived_ignores_nan :
    ∃ w', slot_ScopePacketReceived (constructed 1 []) [float_nan] = some w' ∧
      w'._chartData 0 = [] ∧ (⟨0, float_nan⟩ : QPointF) ∉ w'._chartData 0 :=
  ⟨_, rfl, rfl, by decide⟩

/-- C7, amended: with the rolling index x inside the window, the slot stores
each finite value of the packet unmodified in the series of its channel, as
the point (x, p[c]): appended as the last point when the series has fewer than
200 points, written at position x otherwise, the other points unchanged.  A
NaN or infinite value leaves its series unchanged, and so does a channel with
no value in the packet. -/
theorem slot_ScopePacketReceived_stores (w : MainWindow SCOPE_CHANNEL_COUNT)
    (packet : List float) (h0 : 0 ≤ w._scopeX) (h200 : w._scopeX < SAMPLE_WINDOW_LENGTH) :
    ∃ w', slot_ScopePacketReceived w packet = some w' ∧
      ∀ c : Fin SCOPE_CHANNEL_COUNT,
        (∀ y, packet[c.val]? = some y → qIsFinite y = true →
          (w._chartData c).count < SAMPLE_WINDOW_LENGTH →
          w'._chartData c = w._chartData c ++ [⟨w._scopeX, y⟩]) ∧
        (∀ y, packet[c.val]? = some y → qIsFinite y = true →
          ¬ (w._chartData c).count < SAMPLE_WINDOW_LENGTH →
          w'._chartData c = (w._chartData c).set w._scopeX.toNat ⟨w._scopeX, y⟩ ∧
          (w'._chartData c)[w._scopeX.toNat]? = some ⟨w._scopeX, y⟩) ∧
        (∀ y, packet[c.val]? = some y → qIsFinite y = false →
          w'._chartData c = w._chartData c) ∧
        (packet.length ≤ c.val → w'._chartData c = w._chartData c) := by
  obtain ⟨cd, hslot, hspec⟩ := slot_ScopePacketReceived_eq w packet h0 h200
  refine ⟨_, hslot, fun c => ⟨?_, ?_, ?_, ?_⟩⟩
  · intro y hy hfin hcount
    show cd c = _
    rw [hspec c, hy]
    simp [plotted, hfin, hcount]
  · intro y hy hfin hcount
    have hcd : cd c = (w._chartData c).set w._scopeX.toNat ⟨w._scopeX, y⟩ := by
      rw [hspec c, hy]
      simp [plotted, hfin, hcount]
    refine ⟨hcd, ?_⟩
    show (cd c)[w._scopeX.toNat]? = _
    rw [hcd]
    have hlt : w._scopeX.toNat < (w._chartData c).length := by
      unfold QLineSeries.count SAMPLE_WINDOW_LENGTH at *
      omega
    simp [List.getElem?_set, hlt]
  · intro y hy hfin
    show cd c = _
    rw [hspec c, hy]
    simp [plotted, hfin]
  · intro hlen
    show cd c = _
    rw [hspec c, List.getElem?_eq_none hlen]

/-- Witness for the amended C7: the first packet, with a value for channel 0
only, is appended to series 0 at abscissa 0 and leaves series 1 empty. -/
theorem slot_ScopePacketReceived_stores_witness :
    ∃ w', slot_ScopePacketReceived (constructed 2 []) [float_one] = some w' ∧
      w'._chartData 0 = [⟨0, float_one⟩] ∧ w'._chartData 1 = [] := by
  obtain ⟨w', hslot, h⟩ :=
    slot_ScopePacketReceived_stores (constructed 2 []) [float_one] (by decide) (by decide)
  exact ⟨w', hslot, (h 0).1 float_one rfl (by decide) (by decide), (h 1).2.2.2 (by decide)⟩

/-- The invariant behind C9 is kept by every step. -/
theorem Reachable.inv {w : MainWindow SCOPE_CHANNEL_COUNT} (h : Reachable w) :
    (0 ≤ w._scopeX ∧ w._scopeX < SAMPLE_WINDOW_LENGTH) ∧
      ∀ c, (w._chartData c).count ≤ SAMPLE_WINDOW_LENGTH := by
  induction h with
  | constructed ports =>
    refine ⟨⟨le_refl _, ?_⟩, fun _ => ?_⟩
    · show (0 : Int) < 200
      decide
    · show ((0 : Nat) : Int) ≤ 200
      decide
  | @packet w w' p _ hstep ih =>
    obtain ⟨⟨h0, h200⟩, hcount⟩ := ih
    obtain ⟨cd, hslot, hspec⟩ := slot_ScopePacketReceived_eq w p h0 h200
    rw [hslot] at hstep
    cases hstep
    refine ⟨⟨?_, ?_⟩, fun c => ?_⟩
    · show 0 ≤ (w._scopeX + 1) % 200
      omega
    · show (w._scopeX + 1) % 200 < SAMPLE_WINDOW_LENGTH
      unfold SAMPLE_WINDOW_LENGTH
      omega
    · show (cd c).count ≤ SAMPLE_WINDOW_LENGTH
      rw [hspec c]
      have hc := hcount c
      cases packet_c : p[c.val]? with
      | none => exact hc
      | some y =>
        show (plotted w._scopeX (w._chartData c) y).count ≤ SAMPLE_WINDOW_LENGTH
        unfold plotted
        unfold QLineSeries.count SAMPLE_WINDOW_LENGTH at *
        split
        · split
          · simp only [List.length_append, List.length_singleton]
            push_cast
            omega
          · simpa using hc
        · exact hc
  | @reset w _ ih =>
    exact ⟨⟨le_refl _, by simp [slot_ScopeResetReceived, SAMPLE_WINDOW_LENGTH]⟩, ih.2⟩

/-- C9: in every state reachable from the constructed one by sample packets of
any length and reset events, the rolling index is in [0, 200) and no series
holds more than 200 points.  Consequently the slot returns for every packet,
that is, none of its indexed accesses (the packet, the series array, the
position given to replace) is out of range; and whenever a series is in the
replace branch, the rolling index is smaller than its point count. -/
theorem reachable_accesses_in_range (w : MainWindow SCOPE_CHANNEL_COUNT) (h : Reachable w) :
    (0 ≤ w._scopeX ∧ w._scopeX < 200) ∧
    (∀ c, (w._chartData c).count ≤ 200) ∧
    (∀ packet : List float, ∃ w', slot_ScopePacketReceived w packet = some w') ∧
    (∀ c, ¬ (w._chartData c).count < SAMPLE_WINDOW_LENGTH →
      0 ≤ w._scopeX ∧ w._scopeX < (w._chartData c).count) := by
  obtain ⟨⟨h0, h200⟩, hcount⟩ := h.inv
  refine ⟨⟨h0, h200⟩, hcount, fun packet => ?_, fun c hc => ⟨h0, ?_⟩⟩
  · obtain ⟨cd, hslot, -⟩ := slot_ScopePacketReceived_eq w packet h0 h200
    exact ⟨_, hslot⟩
  · exact lt_of_lt_of_le h200 (not_lt.mp hc)

/-- Witness for C9: the state after a reset event that follows a packet with
more values than channels; a packet with fewer values than channels is then
accepted. -/
theorem reachable_accesses_in_range_witness :
    ∃ w₁, slot_ScopePacketReceived (constructed 2 []) [float_one, float_nan, 7] = some w₁ ∧
      Reachable (slot_ScopeResetReceived w₁) ∧
      (0 ≤ (slot_ScopeResetReceived w₁)._scopeX ∧ (slot_ScopeResetReceived w₁)._scopeX < 200) ∧
      (∃ w', slot_ScopePacketReceived (slot_ScopeResetReceived w₁) [float_one] = some w') := by
  obtain ⟨w₁, h₁⟩ :
      ∃ w₁, slot_ScopePacketReceived (constructed 2 []) [float_one, float_nan, 7] = some w₁ :=
    ⟨_, rfl⟩
  have hr : Reachable (slot_ScopeResetReceived w₁) :=
    Reachable.reset (Reachable.packet _ (Reachable.constructed []) h₁)
  exact ⟨w₁, h₁, hr, (reachable_accesses_in_range _ hr).1,
    (reachable_accesses_in_range _ hr).2.2.1 [float_one]⟩

/-- Without reset events and without rejected values the series stay indexed
by abscissa: the point at position i has abscissa i, and a series holds either
as many points as the rolling index or the full window. -/
theorem FilledByPackets.x_indexed {w : MainWindow SCOPE_CHANNEL_COUNT}
    (h : FilledByPackets w) :
    (0 ≤ w._scopeX ∧ w._scopeX < SAMPLE_WINDOW_LENGTH) ∧
      ∀ c, ((w._chartData c).length = w._scopeX.toNat ∨ (w._chartData c).length = 200) ∧
        ∀ (i : Nat) (pt : QPointF), (w._chartData c)[i]? = some pt → pt.x = (i : Int) := by
  induction h with
  | constructed ports =>
    refine ⟨⟨le_refl _, ?_⟩, fun c => ⟨Or.inl rfl, ?_⟩⟩
    · show (0 : Int) < 200
      decide
    · intro i pt hpt
      have hnil : (([] : QLineSeries)[i]? = some pt) := hpt
      simp at hnil
  | @packet w w' p _ hlen hfin hstep ih =>
    obtain ⟨⟨h0, h200⟩, hser⟩ := ih
    obtain ⟨cd, hslot, hspec⟩ := slot_ScopePacketReceived_eq w p h0 h200
    rw [hslot] at hstep
    cases hstep
    have h200' : w._scopeX < 200 := h200
    refine ⟨⟨?_, ?_⟩, fun c => ?_⟩
    · show (0 : Int) ≤ (w._scopeX + 1) % 200
      omega
    · show (w._scopeX + 1) % 200 < SAMPLE_WINDOW_LENGTH
      unfold SAMPLE_WINDOW_LENGTH
      omega
    · obtain ⟨hl, hx⟩ := hser c
      have hc : c.val < p.length := lt_of_lt_of_le c.isLt hlen
      have hy : p[c.val]? = some p[c.val] := List.getElem?_eq_getElem hc
      have hf := hfin c.val p[c.val] c.isLt hy
      have hcd : cd c = plotted w._scopeX (w._chartData c) p[c.val] := by
        rw [hspec c, hy]
      show ((cd c).length = ((w._scopeX + 1) % 200).toNat ∨ (cd c).length = 200) ∧
        ∀ (i : Nat) (pt : QPointF), (cd c)[i]? = some pt → pt.x = (i : Int)
      rw [hcd]
      unfold plotted
      rw [if_pos hf]
      by_cases hcount : (w._chartData c).count < SAMPLE_WINDOW_LENGTH
      · rw [if_pos hcount]
        unfold QLineSeries.count SAMPLE_WINDOW_LENGTH at hcount
        have hlx : (w._chartData c).length = w._scopeX.toNat := by omega
        refine ⟨?_, ?_⟩
        · simp only [List.length_append, List.length_singleton]
          omega
        · intro i pt hpt
          by_cases hi : i < (w._chartData c).length
          · rw [List.getElem?_append_left hi] at hpt
            exact hx i pt hpt
          · have hge : (w._chartData c).length ≤ i := by omega
            rw [List.getElem?_append_right hge] at hpt
            cases hk : i - (w._chartData c).length with
            | zero =>
              rw [hk] at hpt
              simp only [List.getElem?_cons_zero, Option.some.injEq] at hpt
              subst hpt
              show w._scopeX = (i : Int)
              omega
            | succ k =>
              rw [hk] at hpt
              simp at hpt
      · rw [if_neg hcount]
        unfold QLineSeries.count SAMPLE_WINDOW_LENGTH at hcount
        have hfull : (w._chartData c).length = 200 := by omega
        refine ⟨Or.inr (by simpa using hfull), ?_⟩
        intro i pt hpt
        rw [List.getElem?_set] at hpt
        by_cases hi : w._scopeX.toNat = i
        · rw [if_pos hi] at hpt
          split at hpt
          · simp only [Option.some.injEq] at hpt
            subst hpt
            show w._scopeX = (i : Int)
            omega
          · cases hpt
        · rw [if_neg hi] at hpt
          exact hx i pt hpt

/-- C10 fails on the code: one full-length packet, a reset event, and a second
full-length packet (one channel) leave series 0 with two points of abscissa 0;
the point stored at position 1 has abscissa 0, not 1. -/
theorem reset_breaks_x_indexing :
    ∃ w₁ w₂, slot_ScopePacketReceived (constructed 1 []) [float_one] = some w₁ ∧
      slot_ScopePacketReceived (slot_ScopeResetReceived w₁) [float_minus_one] = some w₂ ∧
      Reachable w₂ ∧
      w₂._chartData 0 = [⟨0, float_one⟩, ⟨0, float_minus_one⟩] ∧
      (w₂._chartData 0)[1]? = some ⟨0, float_minus_one⟩ := by
  refine ⟨_, _, rfl, rfl, ?_, rfl, rfl⟩
  exact Reachable.packet [float_minus_one]
    (Reachable.reset (Reachable.packet [float_one] (Reachable.constructed []) rfl)) rfl

end MainWindow

/-! ## Theorems: the text log -/

namespace MainWindow

variable {SCOPE_CHANNEL_COUNT : Nat}

theorem split_cons (sep c : Char) (cs : QString) :
    split sep (c :: cs) =
      if c = sep then [] :: split sep cs
      else
        match split sep cs with
        | [] => [[c]]
        | piece :: pieces => (c :: piece) :: pieces := by
  rw [split]

theorem split_ne_nil (sep : Char) (txt : QString) : split sep txt ≠ [] := by
  induction txt with
  | nil => simp [split]
  | cons c cs ih =>
    unfold split
    split
    · simp
    · split <;> simp

/-- Joining the pieces with the separator gives the text back. -/
theorem split_join (sep : Char) (txt : QString) :
    ∀ piece pieces, split sep txt = piece :: pieces →
      piece ++ (pieces.map (fun l => sep :: l)).flatten = txt := by
  induction txt with
  | nil =>
    intro piece pieces h
    simp only [split, List.cons.injEq] at h
    obtain ⟨rfl, rfl⟩ := h
    rfl
  | cons c cs ih =>
    intro piece pieces h
    unfold split at h
    by_cases hc : c = sep
    · rw [if_pos hc] at h
      cases hs : split sep cs with
      | nil => exact absurd hs (split_ne_nil sep cs)
      | cons q qs =>
        rw [hs] at h
        simp only [List.cons.injEq] at h
        obtain ⟨rfl, rfl⟩ := h
        have := ih q qs hs
        simp [hc, this]
    · rw [if_neg hc] at h
      cases hs : split sep cs with
      | nil => exact absurd hs (split_ne_nil sep cs)
      | cons q qs =>
        rw [hs] at h
        simp only [List.cons.injEq] at h
        obtain ⟨rfl, rfl⟩ := h
        have := ih q qs hs
        simp [this]

/-- There is one piece more than there are separators. -/
theorem split_length (sep : Char) (txt : QString) :
    (split sep txt).length = txt.count sep + 1 := by
  induction txt with
  | nil => simp [split]
  | cons c cs ih =>
    unfold split
    by_cases hc : c = sep
    · subst hc
      simp [ih]
    · rw [if_neg hc]
      have hne : (c == sep) = false := by simpa using hc
      cases hs : split sep cs with
      | nil => exact absurd hs (split_ne_nil sep cs)
      | cons q qs =>
        rw [hs] at ih
        simp only [List.length_cons] at ih ⊢
        rw [List.count_cons, hne]
        simpa using ih

/-- Splitting at a separator splits the list of pieces. -/
theorem split_append_sep (sep : Char) (xs ys : QString) :
    split sep (xs ++ sep :: ys) = split sep xs ++ split sep ys := by
  induction xs with
  | nil =>
    show split sep (sep :: ys) = split sep [] ++ split sep ys
    rw [split_cons]
    simp [split]
  | cons c cs ih =>
    simp only [List.cons_append]
    rw [split_cons, split_cons sep c cs]
    by_cases hc : c = sep
    · simp [hc, ih]
    · rw [if_neg hc, if_neg hc, ih]
      cases hs : split sep cs with
      | nil => exact absurd hs (split_ne_nil sep cs)
      | cons q qs => simp

theorem insertedText_append (ops₁ ops₂ : List TextEditOp) :
    insertedText (ops₁ ++ ops₂) = insertedText ops₁ ++ insertedText ops₂ := by
  induction ops₁ with
  | nil => rfl
  | cons op ops ih => cases op <;> simp [insertedText, ih]

theorem plainTextInsertions_append (ops₁ ops₂ : List TextEditOp) :
    plainTextInsertions (ops₁ ++ ops₂) = plainTextInsertions ops₁ ++ plainTextInsertions ops₂ := by
  induction ops₁ with
  | nil => rfl
  | cons op ops ih => cases op <;> simp [plainTextInsertions, ih]

theorem htmlInsertions_append (ops₁ ops₂ : List TextEditOp) :
    htmlInsertions (ops₁ ++ ops₂) = htmlInsertions ops₁ ++ htmlInsertions ops₂ := by
  induction ops₁ with
  | nil => rfl
  | cons op ops ih => cases op <;> simp [htmlInsertions, ih]

theorem insertedText_insertLines_false (lines : List QString) :
    insertedText (insertLines false lines) = (lines.map (fun l => '\n' :: l)).flatten := by
  induction lines with
  | nil => rfl
  | cons line rest ih =>
    by_cases hl : line = []
    · simp [insertLines, insertedText, insertedText_append, ih, hl]
    · have : line.isEmpty = false := by simpa [List.isEmpty_iff] using hl
      simp [insertLines, insertedText, insertedText_append, ih, this]

theorem insertedText_insertLines_true (line : QString) (rest : List QString) :
    insertedText (insertLines true (line :: rest)) =
      line ++ (rest.map (fun l => '\n' :: l)).flatten := by
  by_cases hl : line = []
  · simp [insertLines, insertedText, insertedText_append, insertedText_insertLines_false, hl]
  · have : line.isEmpty = false := by simpa [List.isEmpty_iff] using hl
    simp [insertLines, insertedText, insertedText_append, insertedText_insertLines_false, this]

theorem plainTextInsertions_insertLines_false (lines : List QString) :
    plainTextInsertions (insertLines false lines) = List.replicate lines.length ['\n'] := by
  induction lines with
  | nil => rfl
  | cons line rest ih =>
    by_cases hl : line.isEmpty = true <;>
      simp [insertLines, plainTextInsertions, plainTextInsertions_append, ih, hl,
        List.replicate_succ]

theorem plainTextInsertions_insertLines_true (line : QString) (rest : List QString) :
    plainTextInsertions (insertLines true (line :: rest)) =
      List.replicate rest.length ['\n'] := by
  by_cases hl : line.isEmpty = true <;>
    simp [insertLines, plainTextInsertions, plainTextInsertions_append,
      plainTextInsertions_insertLines_false, hl]

theorem htmlInsertions_insertLines (atBegin : Bool) (lines : List QString) :
    htmlInsertions (insertLines atBegin lines) = lines.filter (fun l => !l.isEmpty) := by
  induction lines generalizing atBegin with
  | nil => rfl
  | cons line rest ih =>
    by_cases hl : line.isEmpty = true <;> cases atBegin <;>
      simp [insertLines, htmlInsertions, htmlInsertions_append, ih, hl]

/-- What a sample packet leaves alone, and the range of the new index. -/
theorem slot_ScopePacketReceived_frame (w : MainWindow SCOPE_CHANNEL_COUNT)
    (packet : List float) (h0 : 0 ≤ w._scopeX) (h200 : w._scopeX < SAMPLE_WINDOW_LENGTH) :
    ∃ w', slot_ScopePacketReceived w packet = some w' ∧ w'._textLog = w._textLog ∧
      w'._demux = w._demux ∧ 0 ≤ w'._scopeX ∧ w'._scopeX < SAMPLE_WINDOW_LENGTH := by
  obtain ⟨cd, hslot, -⟩ := slot_ScopePacketReceived_eq w packet h0 h200
  refine ⟨_, hslot, rfl, rfl, ?_, ?_⟩
  · show (0 : Int) ≤ (w._scopeX + 1) % 200
    omega
  · show (w._scopeX + 1) % 200 < SAMPLE_WINDOW_LENGTH
    unfold SAMPLE_WINDOW_LENGTH
    omega

/-- With the rolling index inside the window, every sequence of signals is
delivered; the chart slots touch neither the text log nor the demultiplexer,
and leave the rolling index inside the window. -/
theorem deliver_eq_some (signals : List ScopeSignal) (w : MainWindow SCOPE_CHANNEL_COUNT)
    (h0 : 0 ≤ w._scopeX) (h200 : w._scopeX < SAMPLE_WINDOW_LENGTH) :
    ∃ w', deliver w signals = some w' ∧ w'._textLog = w._textLog ∧ w'._demux = w._demux ∧
      0 ≤ w'._scopeX ∧ w'._scopeX < SAMPLE_WINDOW_LENGTH := by
  induction signals generalizing w with
  | nil => exact ⟨w, rfl, rfl, rfl, h0, h200⟩
  | cons signal rest ih =>
    cases signal with
    | scopePacketReceived packet =>
      obtain ⟨w₁, hslot, hlog₁, hdemux₁, hlo, hhi⟩ := slot_ScopePacketReceived_frame w packet h0 h200
      obtain ⟨w', hd, hlog, hdemux, hx⟩ := ih w₁ hlo hhi
      exact ⟨w', by simp only [deliver, hslot, hd], hlog.trans hlog₁, hdemux.trans hdemux₁, hx⟩
    | scopeResetReceived =>
      obtain ⟨w', hd, hlog, hdemux, hx⟩ := ih (slot_ScopeResetReceived w) (le_refl _)
        (by show (0 : Int) < 200; decide)
      exact ⟨w', by simp only [deliver, hd], hlog, hdemux, hx⟩

/-- The slot returns, and appends to the text log exactly the calls of
`showText` on the text the demultiplexer returned. -/
theorem slot_SerialDataReceived_eq (addData : ScopeDataDemux → QByteArray → AddDataResult)
    (w : MainWindow SCOPE_CHANNEL_COUNT) (buf : QByteArray)
    (h0 : 0 ≤ w._scopeX) (h200 : w._scopeX < SAMPLE_WINDOW_LENGTH) :
    ∃ w', slot_SerialDataReceived addData w buf = some w' ∧
      w'._textLog = w._textLog ++ showText (addData w._demux buf).text ∧
      w'._demux = (addData w._demux buf).demux := by
  obtain ⟨w₁, hd, hlog, hdemux, -⟩ :=
    deliver_eq_some (addData w._demux buf).signals
      { w with _demux := (addData w._demux buf).demux } h0 h200
  refine ⟨{ w₁ with _textLog := w₁._textLog ++ showText (addData w._demux buf).text }, ?_, ?_, ?_⟩
  · simp only [slot_SerialDataReceived, hd]
  · show w₁._textLog ++ _ = _
    rw [hlog]
  · exact hdemux

/-- C4: for every text the demultiplexer returns, the slot returns and the
calls it adds to the text log insert, concatenated in order, exactly that
text: one insertPlainText of a newline per newline of the text, and one
insertHtml per non-empty newline-delimited segment (the last one included), in
the original order. -/
theorem slot_SerialDataReceived_inserts_text
    (addData : ScopeDataDemux → QByteArray → AddDataResult)
    (w : MainWindow SCOPE_CHANNEL_COUNT) (buf : QByteArray)
    (h0 : 0 ≤ w._scopeX) (h200 : w._scopeX < SAMPLE_WINDOW_LENGTH) :
    ∃ w' ops, slot_SerialDataReceived addData w buf = some w' ∧
      w'._textLog = w._textLog ++ ops ∧
      insertedText ops = (addData w._demux buf).text ∧
      plainTextInsertions ops =
        List.replicate ((addData w._demux buf).text.count '\n') ['\n'] ∧
      htmlInsertions ops =
        (split '\n' (addData w._demux buf).text).filter (fun l => !l.isEmpty) := by
  obtain ⟨w', hslot, hlog, -⟩ := slot_SerialDataReceived_eq addData w buf h0 h200
  refine ⟨w', _, hslot, hlog, ?_⟩
  generalize (addData w._demux buf).text = txt
  cases txt with
  | nil => simp [showText, insertedText, plainTextInsertions, htmlInsertions, split]
  | cons c cs =>
    have hshow : showText (c :: cs) = insertLines true (split '\n' (c :: cs)) := by
      simp [showText]
    rw [hshow]
    cases hs : split '\n' (c :: cs) with
    | nil => exact absurd hs (split_ne_nil _ _)
    | cons piece pieces =>
      have hlen := split_length '\n' (c :: cs)
      rw [hs, List.length_cons] at hlen
      refine ⟨?_, ?_, ?_⟩
      · rw [insertedText_insertLines_true]
        exact split_join '\n' (c :: cs) piece pieces hs
      · rw [plainTextInsertions_insertLines_true]
        congr 1
        omega
      · rw [htmlInsertions_insertLines]

/-- Witness for C4: the text "a", two newlines, "b" (an empty segment between
consecutive delimiters, and an unterminated last segment). -/
theorem slot_SerialDataReceived_inserts_text_witness :
    ∃ w' ops, slot_SerialDataReceived (fun d buf => ⟨d, [], buf.map Char.ofNat⟩)
        (constructed 1 []) [97, 10, 10, 98] = some w' ∧
      w'._textLog = (constructed 1 [])._textLog ++ ops ∧
      insertedText ops = ['a', '\n', '\n', 'b'] ∧
      plainTextInsertions ops = [['\n'], ['\n']] ∧
      htmlInsertions ops = [['a'], ['b']] :=
  slot_SerialDataReceived_inserts_text (fun d buf => ⟨d, [], buf.map Char.ofNat⟩)
    (constructed 1 []) [97, 10, 10, 98] (by decide) (by decide)

theorem insertLines_append (atBegin : Bool) (l₁ l₂ : List QString) :
    insertLines atBegin (l₁ ++ l₂) =
      insertLines atBegin l₁ ++ insertLines (atBegin && l₁.isEmpty) l₂ := by
  induction l₁ generalizing atBegin with
  | nil => simp [insertLines]
  | cons line rest ih => simp [insertLines, ih]

theorem insertions_append (ops₁ ops₂ : List TextEditOp) :
    insertions (ops₁ ++ ops₂) = insertions ops₁ ++ insertions ops₂ := by
  simp [insertions]

/-- After a line boundary the first line of the next text is inserted as a
line that is not the first: the newline, then what `showText` inserts. -/
theorem insertions_insertLines_false_split (b : QString) :
    insertions (insertLines false (split '\n' b)) =
      TextEditOp.insertPlainText ['\n'] :: insertions (showText b) := by
  cases b with
  | nil => simp [split, insertLines, insertions, showText]
  | cons c cs =>
    have hshow : showText (c :: cs) = insertLines true (split '\n' (c :: cs)) := by
      simp [showText]
    rw [hshow]
    cases hs : split '\n' (c :: cs) with
    | nil => exact absurd hs (split_ne_nil _ _)
    | cons piece pieces =>
      by_cases hp : piece.isEmpty = true <;> simp [insertLines, insertions, hp]

/-- C5: when the text a ends with a newline, the insertions made for a on one
call and for b on the next are the same sequence as the insertions made for a
followed by b on a single call. -/
theorem showText_split_at_newline (a b : QString) (ha : a.getLast? = some '\n') :
    insertions (showText a ++ showText b) = insertions (showText (a ++ b)) := by
  have hsplit : a.dropLast ++ ['\n'] = a := List.dropLast_append_getLast? _ ha
  have hane : a ≠ [] := by
    intro h
    rw [h] at ha
    cases ha
  have habne : a ++ b ≠ [] := by simp [hane]
  have h1 : showText a = insertLines true (split '\n' a) := by
    simp [showText, List.isEmpty_iff, hane]
  have h2 : showText (a ++ b) = insertLines true (split '\n' (a ++ b)) := by
    simp only [showText, List.isEmpty_iff, habne, if_false]
  have hsa : split '\n' a = split '\n' a.dropLast ++ [[]] := by
    conv_lhs => rw [← hsplit]
    rw [split_append_sep]
    rfl
  have hsab : split '\n' (a ++ b) = split '\n' a.dropLast ++ split '\n' b := by
    conv_lhs => rw [← hsplit]
    rw [List.append_assoc, List.singleton_append, split_append_sep]
  have hne : (split '\n' a.dropLast).isEmpty = false := by
    simpa [List.isEmpty_iff] using split_ne_nil '\n' a.dropLast
  rw [h1, h2, hsa, hsab, insertLines_append, insertLines_append, hne]
  simp only [Bool.and_false, insertions_append, List.append_assoc]
  congr 1
  rw [insertions_insertLines_false_split]
  simp [insertLines, insertions]

/-- Witness for C5: "x" and a newline on one call, "y" on the next. -/
theorem showText_split_at_newline_witness :
    insertions (showText ['x', '\n'] ++ showText ['y']) =
      insertions (showText (['x', '\n'] ++ ['y'])) :=
  showText_split_at_newline ['x', '\n'] ['y'] (by decide)

/-- C6: when the demultiplexer returns the empty string, the slot returns and
the text log is as before: no cursor move and no insertion is made on it. -/
theorem slot_SerialDataReceived_empty_text
    (addData : ScopeDataDemux → QByteArray → AddDataResult)
    (w : MainWindow SCOPE_CHANNEL_COUNT) (buf : QByteArray)
    (h0 : 0 ≤ w._scopeX) (h200 : w._scopeX < SAMPLE_WINDOW_LENGTH)
    (htxt : (addData w._demux buf).text = []) :
    ∃ w', slot_SerialDataReceived addData w buf = some w' ∧ w'._textLog = w._textLog := by
  obtain ⟨w', hslot, hlog, -⟩ := slot_SerialDataReceived_eq addData w buf h0 h200
  refine ⟨w', hslot, ?_⟩
  rw [hlog, htxt]
  simp [showText]

/-- Witness for C6: a read that carries a reset event and no text, after the
text "ok" was logged. -/
theorem slot_SerialDataReceived_empty_text_witness :
    ∃ w', slot_SerialDataReceived
        (fun d _ => ⟨d, [ScopeSignal.scopeResetReceived], []⟩)
        { constructed 1 [] with _textLog := [TextEditOp.insertHtml ['o', 'k']] } [254]
          = some w' ∧
      w'._textLog = [TextEditOp.insertHtml ['o', 'k']] :=
  slot_SerialDataReceived_empty_text (fun d _ => ⟨d, [ScopeSignal.scopeResetReceived], []⟩)
    { constructed 1 [] with _textLog := [TextEditOp.insertHtml ['o', 'k']] } [254]
    (by decide) (by decide) rfl

end MainWindow

/-! ## Theorems: connecting and the demultiplexer -/

namespace MainWindow

variable {SCOPE_CHANNEL_COUNT : Nat}

/-- C3 fails on the code: a window whose demultiplexer is in the middle of a
frame body (three payload bytes carried over, five to come) is disconnected
and connected again; the port is open, and the demultiplexer is still in
ReadingFrameBody with its carry-over buffer, not in ScanningText with an empty
one. -/
theorem reconnect_keeps_partial_frame :
    (slot_ConnectClicked true (slot_DisconnectClicked
        { constructed 1 [['t', 't', 'y']] with
          _serialPort := ⟨true, ['t', 't', 'y']⟩
          _demux := ⟨ParserState.ReadingFrameBody 5, [0, 0, 128]⟩ }))._serialPort.isOpen = true ∧
    (slot_ConnectClicked true (slot_DisconnectClicked
        { constructed 1 [['t', 't', 'y']] with
          _serialPort := ⟨true, ['t', 't', 'y']⟩
          _demux := ⟨ParserState.ReadingFrameBody 5, [0, 0, 128]⟩ }))._demux
      = ⟨ParserState.ReadingFrameBody 5, [0, 0, 128]⟩ ∧
    (slot_ConnectClicked true (slot_DisconnectClicked
        { constructed 1 [['t', 't', 'y']] with
          _serialPort := ⟨true, ['t', 't', 'y']⟩
          _demux := ⟨ParserState.ReadingFrameBody 5, [0, 0, 128]⟩ }))._demux
      ≠ ⟨ParserState.ScanningText, []⟩ :=
  ⟨rfl, rfl, by decide⟩

/-- C3, amended: neither slot_ConnectClicked, whatever the outcome of the
connect, nor slot_DisconnectClicked touches the demultiplexer: its parser
state and carry-over buffer are after the call what they were before it.  A
connect that opens the port (port closed, a port selected, open succeeds)
leaves the port open. -/
theorem slot_ConnectClicked_keeps_demux (openSucceeds : Bool)
    (w : MainWindow SCOPE_CHANNEL_COUNT) :
    (slot_ConnectClicked openSucceeds w)._demux = w._demux ∧
    (slot_DisconnectClicked w)._demux = w._demux ∧
    (w._serialPort.isOpen = false → currentText w._portList ≠ [] → openSucceeds = true →
      (slot_ConnectClicked openSucceeds w)._serialPort.isOpen = true) := by
  refine ⟨?_, ?_, ?_⟩
  · unfold slot_ConnectClicked
    dsimp only
    split_ifs <;> rfl
  · unfold slot_DisconnectClicked
    dsimp only
    split_ifs <;> rfl
  · intro hclosed hport hopen
    have hne : (currentText w._portList).isEmpty = false := by
      simpa [List.isEmpty_iff] using hport
    simp [slot_ConnectClicked, hclosed, hne, hopen]

end MainWindow

namespace Protocol

/-- Feeding a chunk in two parts: the second part starts from the state the
first part left, and the outputs are concatenated. -/
theorem addData_append (cfg : Protocol) (d : ScopeDataDemux) (xs ys : QByteArray) :
    cfg.addData d (xs ++ ys) =
      ⟨(cfg.addData (cfg.addData d xs).demux ys).demux,
        (cfg.addData d xs).signals ++ (cfg.addData (cfg.addData d xs).demux ys).signals,
        (cfg.addData d xs).text ++ (cfg.addData (cfg.addData d xs).demux ys).text⟩ := by
  induction xs generalizing d with
  | nil => simp [addData]
  | cons b rest ih =>
    have hstep : ∀ zs, cfg.addData d (b :: zs) =
        ⟨(cfg.addData (cfg.feedByte d b).demux zs).demux,
          (cfg.feedByte d b).signals ++ (cfg.addData (cfg.feedByte d b).demux zs).signals,
          (cfg.feedByte d b).text ++ (cfg.addData (cfg.feedByte d b).demux zs).text⟩ :=
      fun _ => rfl
    rw [List.cons_append, hstep, hstep, ih]
    simp

/-- C8: for every byte sequence and every way of cutting it into chunks, one
addData call per chunk, in order, returns the same concatenated text and emits
the same sequence of scopePacketReceived and scopeResetReceived signals as a
single addData call on the whole sequence, and leaves the same state. -/
theorem addChunks_eq_addData (cfg : Protocol) (d : ScopeDataDemux) (chunks : List QByteArray) :
    cfg.addChunks d chunks = cfg.addData d chunks.flatten := by
  induction chunks generalizing d with
  | nil => rfl
  | cons chunk rest ih =>
    simp only [addChunks, List.flatten_cons]
    rw [addData_append, ih]

/-- The concrete scenario of §8 on the model, with marker 255, kinds 1 and 2,
two channels of four little-endian bytes: text passes through, a sample frame
cut at an arbitrary place gives one packet with the values 1.0 and -1.0, and a
reset frame gives one reset event. -/
theorem addData_scenario :
    let cfg : Protocol := ⟨255, 1, 2, 2, 4, fun bytes => bytes.foldr (fun b v => b + 256 * v) 0⟩
    cfg.addData ⟨ParserState.ScanningText, []⟩ [111, 107, 10]
      = ⟨⟨ParserState.ScanningText, []⟩, [], ['o', 'k', '\n']⟩ ∧
    cfg.addChunks ⟨ParserState.ScanningText, []⟩
        [[255, 1, 8, 0, 0, 128], [63, 0, 0, 128, 191]]
      = ⟨⟨ParserState.ScanningText, []⟩,
          [ScopeSignal.scopePacketReceived [float_one, float_minus_one]], []⟩ ∧
    cfg.addData ⟨ParserState.ScanningText, []⟩ [255, 1, 8, 0, 0, 128]
      = ⟨⟨ParserState.ReadingFrameBody 5, [0, 0, 128]⟩, [], []⟩ ∧
    cfg.addData ⟨ParserState.ScanningText, []⟩ [255, 2, 0]
      = ⟨⟨ParserState.ScanningText, []⟩, [ScopeSignal.scopeResetReceived], []⟩ := by
  decide

end Protocol

end STMBL_Servoterm
